import Mathlib

/-!
Verification of the in-process performance layer of the OmegaCore chatbot:
the LRU/TTL cache and token-bucket rate limiter (`lib/utils/cache.ts`,
`lib/utils/rate-limiter.ts`), the cache-aware embedding gateway
(`lib/ai/embeddings.ts`), and the memory store (`lib/db/memory.ts`).

Modelling conventions:
* A JavaScript `Map` is modelled as an association list in iteration order
  (insertion order): the first element is the oldest position.  `Map.set` on
  an existing key updates the entry in place (keeping its position);
  on a fresh key it appends at the end.
* `Date.now()` timestamps are naturals (milliseconds); every operation takes
  the current time `now` as an explicit argument.
* JavaScript numbers are modelled by exact arithmetic (`ℤ`/`ℕ`/`ℚ`): all
  quantities the code manipulates (token counts, milliseconds, floor of
  `elapsedSeconds * refillRate`) are integer-valued at the call sites, so
  exact arithmetic agrees with the floating-point source on these claims.
* Mutation is modelled by explicit state passing: each operation returns its
  result together with the updated state.
-/

namespace OmegaCore

/-- JavaScript `Map<K, V>` as an association list in iteration order. -/
abbrev JsMap (K V : Type) := List (K × V)

/-- `Map.get`: the value stored at `k`, if any. -/
def jsMapGet {K V : Type} [DecidableEq K] (m : JsMap K V) (k : K) : Option V :=
  (m.find? (fun p => decide (p.1 = k))).map (fun p => p.2)

/-- `Map.delete`: remove the binding of `k` (no-op when absent). -/
def jsMapDelete {K V : Type} [DecidableEq K] (m : JsMap K V) (k : K) : JsMap K V :=
  m.filter (fun p => decide (p.1 ≠ k))

/-- `Map.set`: in-place update when `k` is present (position kept),
    append at the end when it is fresh. -/
def jsMapSet {K V : Type} [DecidableEq K] (m : JsMap K V) (k : K) (v : V) : JsMap K V :=
  if (m.find? (fun p => decide (p.1 = k))).isSome then
    m.map (fun p => if p.1 = k then (k, v) else p)
  else
    m ++ [(k, v)]

/-! ## `lib/utils/cache.ts` — LRU cache with TTL -/

/-- `CacheEntry<T>` from `cache.ts`. -/
structure CacheEntry (V : Type) where
  value : V
  timestamp : ℕ
  accessCount : ℕ
deriving DecidableEq

/-- `LRUCache<K, V>` from `cache.ts`: the backing `Map` (iteration order =
    recency order, oldest first), plus the configuration fields.  `maxSize`
    and `ttl` are `ℤ` because the constructor accepts any number. -/
structure LRUCache (K V : Type) where
  cache : JsMap K (CacheEntry V)
  maxSize : ℤ
  ttl : ℤ
deriving DecidableEq

/-- The `LRUCache` constructor: stores the parameters with no validation. -/
def LRUCache.init {K V : Type} (maxSize ttl : ℤ) : LRUCache K V :=
  ⟨[], maxSize, ttl⟩

/-- `LRUCache.get`: TTL-expired entries are deleted and reported absent
    (strict `age > ttl` check); a live hit bumps the access count and moves
    the entry to the most-recently-used (last) position. -/
def LRUCache.get {K V : Type} [DecidableEq K] (c : LRUCache K V) (now : ℕ) (k : K) :
    Option V × LRUCache K V :=
  match jsMapGet c.cache k with
  | none => (none, c)
  | some e =>
    if (now : ℤ) - (e.timestamp : ℤ) > c.ttl then
      (none, { c with cache := jsMapDelete c.cache k })
    else
      (some e.value,
       { c with cache := jsMapSet (jsMapDelete c.cache k) k ⟨e.value, e.timestamp, e.accessCount + 1⟩ })

/-- `LRUCache.set`: overwriting an existing key refreshes its timestamp,
    bumps the access count and moves it to the MRU position; inserting a
    fresh key at capacity first deletes the first key in iteration order
    (`cache.keys().next().value`; a no-op on the empty map, where that
    expression is `undefined`). -/
def LRUCache.set {K V : Type} [DecidableEq K] (c : LRUCache K V) (now : ℕ) (k : K) (v : V) :
    LRUCache K V :=
  match jsMapGet c.cache k with
  | some e =>
    { c with cache := jsMapSet (jsMapDelete c.cache k) k ⟨v, now, e.accessCount + 1⟩ }
  | none =>
    let afterEvict : JsMap K (CacheEntry V) :=
      if (c.cache.length : ℤ) ≥ c.maxSize then
        match c.cache with
        | [] => c.cache
        | (k0, _) :: _ => jsMapDelete c.cache k0
      else c.cache
    { c with cache := jsMapSet afterEvict k ⟨v, now, 1⟩ }

/-- `LRUCache.has`: same expiry semantics as `get`, without the recency move. -/
def LRUCache.has {K V : Type} [DecidableEq K] (c : LRUCache K V) (now : ℕ) (k : K) :
    Bool × LRUCache K V :=
  match jsMapGet c.cache k with
  | none => (false, c)
  | some e =>
    if (now : ℤ) - (e.timestamp : ℤ) > c.ttl then
      (false, { c with cache := jsMapDelete c.cache k })
    else
      (true, c)

/-- `LRUCache.delete`. -/
def LRUCache.del {K V : Type} [DecidableEq K] (c : LRUCache K V) (k : K) :
    Bool × LRUCache K V :=
  ((jsMapGet c.cache k).isSome, { c with cache := jsMapDelete c.cache k })

/-- `LRUCache.clear`. -/
def LRUCache.clear {K V : Type} (c : LRUCache K V) : LRUCache K V :=
  { c with cache := [] }

/-! ## `lib/utils/rate-limiter.ts` — token-bucket rate limiter -/

/-- `Bucket` from `rate-limiter.ts`. -/
structure Bucket where
  tokens : ℤ
  lastRefill : ℕ
deriving DecidableEq

/-- `RateLimiter` from `rate-limiter.ts`.  `refillRate` is in tokens/second
    (a positive integer at every construction site); `windowMs` in ms. -/
structure RateLimiter where
  buckets : JsMap String Bucket
  capacity : ℤ
  refillRate : ℕ
  windowMs : ℕ
deriving DecidableEq

/-- The `RateLimiter` constructor: stores the parameters with no validation. -/
def RateLimiter.init (capacity : ℤ) (refillRate windowMs : ℕ) : RateLimiter :=
  ⟨[], capacity, refillRate, windowMs⟩

/-- Lazy refill amount: `Math.floor(((now - lastRefill) / 1000) * refillRate)`,
    which for real arithmetic equals `⌊(now - lastRefill) * refillRate / 1000⌋`;
    natural subtraction yields `0` for non-positive elapsed time, matching the
    `tokensToAdd > 0` guard of the source. -/
def refillAmount (refillRate : ℕ) (lastRefill now : ℕ) : ℕ :=
  (now - lastRefill) * refillRate / 1000

/-- `RateLimiter.isAllowed`: fetch or create the bucket (a fresh bucket holds
    `capacity` tokens), apply the lazy refill capped at `capacity`, then admit
    and debit `cost` tokens if enough are available, else deny.  The refill
    mutation persists even on denial. -/
def RateLimiter.isAllowed (rl : RateLimiter) (now : ℕ) (identifier : String) (cost : ℕ) :
    Bool × RateLimiter :=
  let b0 : Bucket :=
    match jsMapGet rl.buckets identifier with
    | some b => b
    | none => ⟨rl.capacity, now⟩
  let tokensToAdd : ℕ := refillAmount rl.refillRate b0.lastRefill now
  let b1 : Bucket :=
    if 0 < tokensToAdd then ⟨min rl.capacity (b0.tokens + (tokensToAdd : ℤ)), now⟩ else b0
  if (cost : ℤ) ≤ b1.tokens then
    (true, { rl with buckets := jsMapSet rl.buckets identifier ⟨b1.tokens - (cost : ℤ), b1.lastRefill⟩ })
  else
    (false, { rl with buckets := jsMapSet rl.buckets identifier b1 })

/-- `RateLimiter.getRemaining`: read-only projection of the refill math
    (the computed refill is not persisted). -/
def RateLimiter.getRemaining (rl : RateLimiter) (now : ℕ) (identifier : String) : ℤ :=
  match jsMapGet rl.buckets identifier with
  | none => rl.capacity
  | some b =>
    max 0 (min rl.capacity (b.tokens + (refillAmount rl.refillRate b.lastRefill now : ℤ)))

/-- `RateLimiter.reset`: drop the bucket. -/
def RateLimiter.reset (rl : RateLimiter) (identifier : String) : RateLimiter :=
  { rl with buckets := jsMapDelete rl.buckets identifier }

/-- `RateLimiter.cleanup`: drop buckets untouched for more than `2 × windowMs`. -/
def RateLimiter.cleanup (rl : RateLimiter) (now : ℕ) : RateLimiter :=
  { rl with buckets := rl.buckets.filter (fun p => decide (¬ now - p.2.lastRefill > 2 * rl.windowMs)) }

/-! Global instances from the source. -/

/-- `embeddingRateLimiter = new RateLimiter(100, 10, 60000)`. -/
def embeddingRateLimiter : RateLimiter := RateLimiter.init 100 10 60000

/-- `memoryRateLimiter = new RateLimiter(200, 20, 60000)`. -/
def memoryRateLimiter : RateLimiter := RateLimiter.init 200 20 60000

/-- The spec invariant on every bucket: `0 ≤ tokens ≤ capacity`. -/
abbrev BucketsInv (rl : RateLimiter) : Prop :=
  ∀ p ∈ rl.buckets, 0 ≤ p.2.tokens ∧ p.2.tokens ≤ rl.capacity

/-- Run `n` consecutive unit (`cost = 1`) admission checks at a fixed time,
    counting how many are admitted. -/
def runUnit (now : ℕ) (identifier : String) : RateLimiter → ℕ → ℕ × RateLimiter
  | rl, 0 => (0, rl)
  | rl, n + 1 =>
    let r1 := rl.isAllowed now identifier 1
    let r2 := runUnit now identifier r1.2 n
    ((if r1.1 then 1 else 0) + r2.1, r2.2)

/-- The spec's scenario limiter: capacity 10, refill 1 token/second. -/
def limiter10 : RateLimiter := RateLimiter.init 10 1 60000

/-- `limiter10` after 11 immediate unit checks at time 0 (10 admitted, the
    11th denied): its single bucket is empty with `lastRefill = 0`. -/
def rlExhausted : RateLimiter := (runUnit 0 "u" limiter10 11).2

/-- The concrete scenario of the spec: capacity 2, insert A and B, `get(A)`,
    insert C (all within the TTL window). -/
def lruScenario : LRUCache String ℕ :=
  (((((LRUCache.init 2 1000 : LRUCache String ℕ).set 0 "A" 1).set 0 "B" 2).get 0 "A").2).set 0 "C" 3

/-! ## `lib/db/schema.ts` — the Memory row

A `Memory` row as selected from the `"Memory"` table.  `metadata` is an
opaque JSON document the core never inspects, modelled as an opaque string;
`importance` is one of `low`/`medium`/`high`, modelled as its string value;
timestamps are naturals. -/

structure Memory where
  id : String
  userId : String
  content : String
  embedding : List ℚ
  metadata : String
  importance : String
  createdAt : ℕ
  updatedAt : ℕ
deriving DecidableEq

/-- `deleteMemory` from `lib/db/memory.ts`:
    `DELETE FROM "Memory" WHERE id = $id AND "userId" = $userId RETURNING *`,
    then `result.length > 0`.  The table is a list of rows; the function
    returns whether a row was removed together with the updated table. -/
def deleteMemory (db : List Memory) (id userId : String) : Bool × List Memory :=
  let deleted := db.filter (fun m => decide (m.id = id ∧ m.userId = userId))
  (decide (0 < deleted.length),
   db.filter (fun m => decide (¬ (m.id = id ∧ m.userId = userId))))

/-! ## `lib/ai/embeddings.ts` — cache-aware, rate-limited embedding gateway -/

/-- `hashText`: the SHA-256 content hash of the text, used as the
    embedding-cache key.  The hash is collision-resistant and every claim
    depends only on equal texts yielding equal keys, so the model uses the
    text itself as its own key. -/
def hashText (text : String) : String := text

/-- The mutable state the gateway touches: the global `embeddingCache`, the
    global `embeddingRateLimiter`, and (for the frame conditions) the log of
    provider calls issued so far. -/
structure GatewayState where
  embeddingCache : LRUCache String (List ℚ)
  embedLimiter : RateLimiter
  providerCalls : List (List String)
deriving DecidableEq

/-- The external OpenAI embedding provider: a single-text entry point that
    may fail, and a batch entry point whose output is paired positionally
    with its input (the model assumes the API key is configured; the
    missing-key guard is deployment configuration outside this core). -/
structure EmbedEnv where
  provider : String → Except Unit (List ℚ)
  providerBatch : List String → List (List ℚ)

/-- `generateEmbedding` (single text): cache hit returns immediately (the
    `get` refreshes recency); on a miss the global rate limiter is checked
    (cost 1) — denial throws, modelled as `Except.error`; otherwise the
    provider is called, the result cached under `hashText text`, and
    returned.  A provider failure propagates after the call was issued. -/
def generateEmbedding (env : EmbedEnv) (now : ℕ) (text : String) (st : GatewayState) :
    Except Unit (List ℚ) × GatewayState :=
  let key := hashText text
  let r := st.embeddingCache.get now key
  match r.1 with
  | some v => (Except.ok v, { st with embeddingCache := r.2 })
  | none =>
    let allowed := st.embedLimiter.isAllowed now "embedding-global" 1
    if allowed.1 then
      match env.provider text with
      | Except.ok emb =>
        (Except.ok emb,
         { embeddingCache := r.2.set now key emb, embedLimiter := allowed.2,
           providerCalls := st.providerCalls ++ [[text]] })
      | Except.error e =>
        (Except.error e,
         { st with embeddingCache := r.2, embedLimiter := allowed.2,
                   providerCalls := st.providerCalls ++ [[text]] })
    else
      (Except.error (), { st with embeddingCache := r.2, embedLimiter := allowed.2 })

/-- The scan loop of `generateEmbeddings`: walk the texts in order (index `i`
    onward), resolving each against the cache; produce the partial results
    array (`none` for misses), the list of `(index, text)` misses in order,
    and the cache after all the `get`s. -/
def scanTexts (now : ℕ) : List String → ℕ → LRUCache String (List ℚ) →
    List (Option (List ℚ)) × List (ℕ × String) × LRUCache String (List ℚ)
  | [], _, c => ([], [], c)
  | t :: ts, i, c =>
    let r := c.get now (hashText t)
    let rest := scanTexts now ts (i + 1) r.2
    match r.1 with
    | some v => (some v :: rest.1, rest.2.1, rest.2.2)
    | none => (none :: rest.1, (i, t) :: rest.2.1, rest.2.2)

/-- The fill loop of `generateEmbeddings` (`response.data.forEach`): write
    each fetched embedding into the results array at the recorded original
    index and cache it under the hash of its text. -/
def fillResults (now : ℕ) : List ((ℕ × String) × List ℚ) → List (Option (List ℚ)) →
    LRUCache String (List ℚ) → List (Option (List ℚ)) × LRUCache String (List ℚ)
  | [], results, c => (results, c)
  | p :: rest, results, c =>
    fillResults now rest (results.set p.1.1 (some p.2)) (c.set now (hashText p.1.2) p.2)

/-- `generateEmbeddings` (batch): scan the cache for every text; if all are
    cached return immediately (the rate limiter is never consulted);
    otherwise one `isAllowed` check for `uncached.length` tokens gates a
    single provider call carrying exactly the uncached texts, whose results
    are filled in positionally and cached.  The final cast
    `results as number[][]` is modelled by `Option.getD`. -/
def generateEmbeddings (env : EmbedEnv) (now : ℕ) (texts : List String) (st : GatewayState) :
    Except Unit (List (List ℚ)) × GatewayState :=
  let scan := scanTexts now texts 0 st.embeddingCache
  let results := scan.1
  let uncached := scan.2.1
  if uncached.length = 0 then
    (Except.ok (results.map (fun r => r.getD [])), { st with embeddingCache := scan.2.2 })
  else
    let allowed := st.embedLimiter.isAllowed now "embedding-global" uncached.length
    if allowed.1 then
      let uncachedTexts := uncached.map (fun u => u.2)
      let fill := fillResults now (uncached.zip (env.providerBatch uncachedTexts)) results scan.2.2
      (Except.ok (fill.1.map (fun r => r.getD [])),
       { embeddingCache := fill.2, embedLimiter := allowed.2,
         providerCalls := st.providerCalls ++ [uncachedTexts] })
    else
      (Except.error (), { st with embeddingCache := scan.2.2, embedLimiter := allowed.2 })

/-- The misses of the scan phase, for stating the batch contract. -/
def scanMisses (now : ℕ) (texts : List String) (st : GatewayState) : List (ℕ × String) :=
  (scanTexts now texts 0 st.embeddingCache).2.1

/-- The initial global `embeddingCache = new LRUCache(500, 86400000)`. -/
def embeddingCache : LRUCache String (List ℚ) := LRUCache.init 500 86400000

/-! ## `lib/db/memory.ts` — memory store -/

/-- `hashQuery`: the SHA-256 hash of the colon-joined string
    `` `${userId}:${query}:${limit}:${threshold}` ``.  Equal pre-images give
    equal hashes and every claim depends only on the pre-image, so the model
    uses the joined string itself as the cache key. -/
def hashQuery (userId query : String) (limit : ℕ) (threshold : ℚ) : String :=
  userId ++ ":" ++ query ++ ":" ++ toString limit ++ ":" ++ toString threshold

/-- The initial global `queryCache = new LRUCache(200, 1800000)`. -/
def queryCache : LRUCache String (List (Memory × ℚ)) := LRUCache.init 200 1800000

/-- The external collaborators of `searchMemories`: the embedding provider,
    the `"Memory"` table contents, and the pgvector similarity query, an
    oracle taking (call counter, userId, query embedding, threshold, limit)
    that may fail and whose answer may change between calls (the counter
    models data changing under the memoization layer). -/
structure SearchEnv extends EmbedEnv where
  db : List Memory
  index : ℕ → String → List ℚ → ℚ → ℕ → Except Unit (List (Memory × ℚ))

/-- The process-wide state `searchMemories` touches. -/
structure SysState where
  gw : GatewayState
  queryCache : LRUCache String (List (Memory × ℚ))
  memoryLimiter : RateLimiter
  indexCalls : ℕ
deriving DecidableEq

/-- `text.toLowerCase()`. -/
def lowerStr (s : String) : String := ⟨s.data.map Char.toLower⟩

/-- Auxiliary for `includes`: does `hay` start with `needle`? -/
def strStartsWith : List Char → List Char → Bool
  | [], _ => true
  | _ :: _, [] => false
  | a :: as, b :: bs => a == b && strStartsWith as bs

/-- Auxiliary for `includes`: does some suffix of the haystack start with
    the needle? -/
def strContainsSub (needle : List Char) : List Char → Bool
  | [] => needle.isEmpty
  | h :: t => strStartsWith needle (h :: t) || strContainsSub needle t

/-- JavaScript `hay.includes(needle)`: substring containment. -/
def strIncludes (hay needle : String) : Bool := strContainsSub needle.data hay.data

/-- `ORDER BY "createdAt" DESC`. -/
def recentFirst (db : List Memory) : List Memory :=
  db.insertionSort (fun a b => b.createdAt ≤ a.createdAt)

/-- `fallbackTextSearch`: fetch the user's most recent memories (bounded by
    `limit`) and score each `0.8` if the lower-cased content contains the
    lower-cased query, else `0.5`. -/
def fallbackTextSearch (env : SearchEnv) (userId query : String) (limit : ℕ) :
    List (Memory × ℚ) :=
  let results := (recentFirst (env.db.filter (fun m => decide (m.userId = userId)))).take limit
  results.map (fun mem =>
    (mem, if strIncludes (lowerStr mem.content) (lowerStr query) then (8 : ℚ)/10 else (5 : ℚ)/10))

/-- `searchMemories`: the whole body runs in one `try` whose `catch` returns
    `fallbackTextSearch`.  In order: the per-user rate limiter (a denial
    throws, hence falls back); the query cache (a hit returns the cached
    ranked list); `generateEmbedding` for the query (a throw falls back);
    the similarity query (a failure falls back); on success the ranked list
    is cached under the key and returned.  State mutated before a throw
    persists. -/
def searchMemories (env : SearchEnv) (now : ℕ) (userId query : String) (limit : ℕ)
    (threshold : ℚ) (st : SysState) : List (Memory × ℚ) × SysState :=
  let rlr := st.memoryLimiter.isAllowed now userId 1
  let st1 : SysState := { st with memoryLimiter := rlr.2 }
  if rlr.1 then
    let cacheKey := hashQuery userId query limit threshold
    let qres := st1.queryCache.get now cacheKey
    let st2 : SysState := { st1 with queryCache := qres.2 }
    match qres.1 with
    | some cached => (cached, st2)
    | none =>
      let er := generateEmbedding env.toEmbedEnv now query st2.gw
      let st3 : SysState := { st2 with gw := er.2 }
      match er.1 with
      | Except.error _ => (fallbackTextSearch env userId query limit, st3)
      | Except.ok queryEmbedding =>
        let ir := env.index st3.indexCalls userId queryEmbedding threshold limit
        let st4 : SysState := { st3 with indexCalls := st3.indexCalls + 1 }
        match ir with
        | Except.error _ => (fallbackTextSearch env userId query limit, st4)
        | Except.ok results =>
          (results, { st4 with queryCache := st4.queryCache.set now cacheKey results })
  else
    (fallbackTextSearch env userId query limit, st1)

/-! Concrete fixtures used by witnesses and counterexamples. -/

/-- `0.7`, built in lowest terms so that kernel evaluation never needs
    `Nat.gcd` (which does not reduce definitionally). -/
def q7_10 : ℚ := ⟨7, 10, by norm_num, by norm_num⟩

/-- `0.9`, built in lowest terms. -/
def q9_10 : ℚ := ⟨9, 10, by norm_num, by norm_num⟩

/-- A memory row owned by `"u1"`. -/
def row1 : Memory := ⟨"m2", "u1", "Hello World", [1], "", "medium", 10, 10⟩

/-- A search environment: every embedding is `[1]`, one stored row, and a
    similarity index that always answers `[(row1, 9/10)]`. -/
def envS : SearchEnv :=
  ⟨⟨fun _ => Except.ok [1], fun ts => ts.map (fun _ => [1])⟩,
   [row1], fun _ _ _ _ _ => Except.ok [(row1, q9_10)]⟩

/-- A search environment whose provider and index both fail. -/
def envFail : SearchEnv :=
  ⟨⟨fun _ => Except.error (), fun ts => ts.map (fun _ => [1])⟩,
   [row1], fun _ _ _ _ _ => Except.error ()⟩

/-- The process state at startup: empty caches, the global limiters, no
    provider or index calls yet. -/
def st0 : SysState :=
  ⟨⟨LRUCache.init 500 86400000, embeddingRateLimiter, []⟩,
   LRUCache.init 200 1800000, memoryRateLimiter, 0⟩

/-- The state after one successful semantic search by `"a:b"` for `"c"`:
    the query cache holds the ranked result under the colliding key. -/
def stA : SysState := (searchMemories envS 5 "a:b" "c" 5 q7_10 st0).2

/-- A state whose per-user limiter bucket for `"u1"` is exhausted at time 5. -/
def stDeny : SysState :=
  ⟨⟨LRUCache.init 500 86400000, embeddingRateLimiter, []⟩,
   LRUCache.init 200 1800000, ⟨[("u1", ⟨0, 5⟩)], 200, 20, 60000⟩, 0⟩

/-- A provider environment whose embedding of every text is `[1]`. -/
def envW : EmbedEnv := ⟨fun _ => Except.ok [1], fun ts => ts.map (fun _ => [1])⟩

/-- A gateway state whose cache holds `"a"`, `"b"`, `"c"` and whose limiter
    has a full bucket refreshed at time 0. -/
def gwW : GatewayState :=
  ⟨⟨[("a", ⟨[1], 0, 1⟩), ("b", ⟨[1], 0, 1⟩), ("c", ⟨[1], 0, 1⟩)], 500, 86400000⟩,
   ⟨[("embedding-global", ⟨100, 0⟩)], 100, 10, 60000⟩, []⟩

/-- A memory row owned by `"victim"`. -/
def victimRow : Memory := ⟨"m1", "victim", "hello world", [1], "", "medium", 5, 5⟩

/-! ## Basic lemmas about the `Map` model -/

theorem jsMapGet_eq_none_iff {K V : Type} [DecidableEq K] (m : JsMap K V) (k : K) :
    jsMapGet m k = none ↔ ∀ p ∈ m, p.1 ≠ k := by
  simp [jsMapGet, List.find?_eq_none]

theorem jsMapGet_delete_self {K V : Type} [DecidableEq K] (m : JsMap K V) (k : K) :
    jsMapGet (jsMapDelete m k) k = none := by
  rw [jsMapGet_eq_none_iff]
  intro p hp
  simp [jsMapDelete, List.mem_filter] at hp
  exact hp.2

theorem jsMapGet_delete_none {K V : Type} [DecidableEq K] (m : JsMap K V) (k k0 : K)
    (h : jsMapGet m k = none) : jsMapGet (jsMapDelete m k0) k = none := by
  rw [jsMapGet_eq_none_iff] at h ⊢
  intro p hp
  exact h p (List.mem_of_mem_filter hp)

theorem jsMapSet_append {K V : Type} [DecidableEq K] (m : JsMap K V) (k : K) (v : V)
    (h : jsMapGet m k = none) : jsMapSet m k v = m ++ [(k, v)] := by
  have hf : m.find? (fun p => decide (p.1 = k)) = none := by
    have := h
    simp only [jsMapGet, Option.map_eq_none'] at this
    exact this
  simp [jsMapSet, hf]

theorem find?_keyUpdate {K V : Type} [DecidableEq K] (m : JsMap K V) (k : K) (v : V) :
    (m.map (fun p => if p.1 = k then (k, v) else p)).find? (fun p => decide (p.1 = k))
      = (m.find? (fun p => decide (p.1 = k))).map (fun _ => (k, v)) := by
  induction m with
  | nil => rfl
  | cons p t ih =>
    by_cases h : p.1 = k
    · simp [List.find?_cons, h]
    · simp [List.find?_cons, h, ih]

theorem jsMapGet_set_self {K V : Type} [DecidableEq K] (m : JsMap K V) (k : K) (v : V) :
    jsMapGet (jsMapSet m k v) k = some v := by
  by_cases h : (m.find? (fun p => decide (p.1 = k))).isSome
  · unfold jsMapSet
    rw [if_pos h]
    unfold jsMapGet
    rw [find?_keyUpdate]
    rw [Option.isSome_iff_exists] at h
    obtain ⟨p, hp⟩ := h
    rw [hp]
    rfl
  · have hf : m.find? (fun p => decide (p.1 = k)) = none := by
      cases hx : m.find? (fun p => decide (p.1 = k)) with
      | none => rfl
      | some p => rw [hx] at h; simp at h
    simp [jsMapSet, hf, jsMapGet, List.find?_append]

theorem mem_jsMapSet {K V : Type} [DecidableEq K] {m : JsMap K V} {k : K} {v : V}
    {q : K × V} (h : q ∈ jsMapSet m k v) : q ∈ m ∨ q = (k, v) := by
  unfold jsMapSet at h
  split at h
  · rw [List.mem_map] at h
    obtain ⟨p, hp, he⟩ := h
    by_cases hk : p.1 = k
    · right
      rw [if_pos hk] at he
      exact he.symm
    · left
      rw [if_neg hk] at he
      rwa [← he]
  · rcases List.mem_append.mp h with h1 | h1
    · exact Or.inl h1
    · right
      simpa using h1

theorem jsMapDelete_cons_head {K V : Type} [DecidableEq K] (p : K × V) (t : JsMap K V)
    (h : ∀ q ∈ t, q.1 ≠ p.1) : jsMapDelete (p :: t) p.1 = t := by
  simp only [jsMapDelete, List.filter_cons]
  rw [if_neg (by simp)]
  exact List.filter_eq_self.mpr (fun q hq => by simpa using h q hq)

/-! ## Lemmas about cache operations -/

theorem LRUCache.set_ttl {K V : Type} [DecidableEq K] (c : LRUCache K V) (now : ℕ)
    (k : K) (v : V) : (c.set now k v).ttl = c.ttl := by
  unfold LRUCache.set
  cases jsMapGet c.cache k <;> rfl

theorem LRUCache.set_lookup {K V : Type} [DecidableEq K] (c : LRUCache K V) (now : ℕ)
    (k : K) (v : V) :
    ∃ ac, jsMapGet (c.set now k v).cache k = some ⟨v, now, ac⟩ := by
  cases h : jsMapGet c.cache k with
  | some e =>
    exact ⟨e.accessCount + 1, by simp [LRUCache.set, h, jsMapGet_set_self]⟩
  | none =>
    exact ⟨1, by simp [LRUCache.set, h, jsMapGet_set_self]⟩

theorem LRUCache.get_after_set {K V : Type} [DecidableEq K] (c : LRUCache K V)
    (httl : 0 ≤ c.ttl) (now : ℕ) (k : K) (v : V) :
    ((c.set now k v).get now k).1 = some v := by
  obtain ⟨ac, hl⟩ := c.set_lookup now k v
  have ht : (c.set now k v).ttl = c.ttl := c.set_ttl now k v
  simp only [LRUCache.get, hl, ht]
  rw [if_neg (by omega)]

theorem jsMapGet_mem {K V : Type} [DecidableEq K] (m : JsMap K V) (k : K) {v : V}
    (h : jsMapGet m k = some v) : ∃ k', (k', v) ∈ m := by
  simp only [jsMapGet, Option.map_eq_some'] at h
  obtain ⟨p, hfind, hp2⟩ := h
  refine ⟨p.1, ?_⟩
  rw [← hp2]
  exact List.mem_of_find?_eq_some hfind

/-! ## Rate-limiter lemmas -/

theorem BucketsInv_jsMapSet {rl : RateLimiter} {identifier : String} {bF : Bucket}
    (hinv : BucketsInv rl) (h : 0 ≤ bF.tokens ∧ bF.tokens ≤ rl.capacity) :
    BucketsInv { rl with buckets := jsMapSet rl.buckets identifier bF } := by
  intro q hq
  rcases mem_jsMapSet hq with hm | hm
  · exact hinv q hm
  · rw [hm]
    exact h

/-- `isAllowed` always rewrites exactly one bucket, and under the invariant
    the written bucket again satisfies `0 ≤ tokens ≤ capacity`. -/
theorem RateLimiter.isAllowed_spec (rl : RateLimiter) (now : ℕ) (identifier : String)
    (cost : ℕ) :
    ∃ bF : Bucket,
      (rl.isAllowed now identifier cost).2
          = { rl with buckets := jsMapSet rl.buckets identifier bF }
      ∧ (0 ≤ rl.capacity → BucketsInv rl → (0 ≤ bF.tokens ∧ bF.tokens ≤ rl.capacity)) := by
  obtain ⟨b0, hb0eq, hb0bnd⟩ :
      ∃ b0 : Bucket,
        (match jsMapGet rl.buckets identifier with
         | some b => b
         | none => (⟨rl.capacity, now⟩ : Bucket)) = b0
        ∧ (0 ≤ rl.capacity → BucketsInv rl → (0 ≤ b0.tokens ∧ b0.tokens ≤ rl.capacity)) := by
    cases h : jsMapGet rl.buckets identifier with
    | none => exact ⟨⟨rl.capacity, now⟩, rfl, fun hcap _ => ⟨hcap, le_refl _⟩⟩
    | some b =>
      refine ⟨b, rfl, fun _ hinv => ?_⟩
      obtain ⟨k', hm⟩ := jsMapGet_mem rl.buckets identifier h
      exact hinv (k', b) hm
  unfold RateLimiter.isAllowed
  simp only [hb0eq]
  by_cases hr : 0 < refillAmount rl.refillRate b0.lastRefill now
  · rw [if_pos hr]
    by_cases hc : (cost : ℤ) ≤ (min rl.capacity (b0.tokens + (refillAmount rl.refillRate b0.lastRefill now : ℤ)))
    · rw [if_pos hc]
      refine ⟨_, rfl, fun hcap hinv => ?_⟩
      have hb := hb0bnd hcap hinv
      constructor <;> simp only [] <;> omega
    · rw [if_neg hc]
      refine ⟨_, rfl, fun hcap hinv => ?_⟩
      have hb := hb0bnd hcap hinv
      constructor <;> simp only [] <;> omega
  · rw [if_neg hr]
    by_cases hc : (cost : ℤ) ≤ b0.tokens
    · rw [if_pos hc]
      refine ⟨_, rfl, fun hcap hinv => ?_⟩
      have hb := hb0bnd hcap hinv
      constructor <;> simp only [] <;> omega
    · rw [if_neg hc]
      exact ⟨b0, rfl, hb0bnd⟩

theorem RateLimiter.isAllowed_inv (rl : RateLimiter) (now : ℕ) (identifier : String)
    (cost : ℕ) (hcap : 0 ≤ rl.capacity) (hinv : BucketsInv rl) :
    BucketsInv (rl.isAllowed now identifier cost).2 := by
  obtain ⟨bF, heq, hbnd⟩ := rl.isAllowed_spec now identifier cost
  rw [heq]
  exact BucketsInv_jsMapSet hinv (hbnd hcap hinv)

theorem RateLimiter.getRemaining_bounds (rl : RateLimiter) (now : ℕ) (identifier : String)
    (hcap : 0 ≤ rl.capacity) :
    0 ≤ rl.getRemaining now identifier ∧ rl.getRemaining now identifier ≤ rl.capacity := by
  unfold RateLimiter.getRemaining
  cases h : jsMapGet rl.buckets identifier with
  | none => exact ⟨hcap, le_refl _⟩
  | some b => constructor <;> simp only [] <;> omega

theorem RateLimiter.reset_inv (rl : RateLimiter) (identifier : String)
    (hinv : BucketsInv rl) : BucketsInv (rl.reset identifier) := by
  intro q hq
  exact hinv q (List.mem_of_mem_filter hq)

theorem RateLimiter.cleanup_inv (rl : RateLimiter) (now : ℕ)
    (hinv : BucketsInv rl) : BucketsInv (rl.cleanup now) := by
  intro q hq
  exact hinv q (List.mem_of_mem_filter hq)

/-- A single `isAllowed` at the bucket's own `lastRefill` instant adds no
    tokens (elapsed time 0): it purely debits or denies. -/
theorem RateLimiter.isAllowed_at_now (rl : RateLimiter) (now : ℕ) (identifier : String)
    (cost : ℕ) (b : Bucket) (hb : jsMapGet rl.buckets identifier = some b)
    (hlr : b.lastRefill = now) :
    rl.isAllowed now identifier cost
      = if (cost : ℤ) ≤ b.tokens
        then (true, { rl with buckets := jsMapSet rl.buckets identifier ⟨b.tokens - cost, now⟩ })
        else (false, { rl with buckets := jsMapSet rl.buckets identifier b }) := by
  unfold RateLimiter.isAllowed
  simp only [hb, hlr]
  unfold refillAmount
  rw [Nat.sub_self, Nat.zero_mul, Nat.zero_div]
  rw [if_neg (lt_irrefl 0)]
  split <;> simp [hlr]

/-- Counting lemma: from a bucket already refreshed at `now` holding `m`
    tokens, `n` unit checks at time `now` admit exactly `min m n`. -/
theorem runUnit_fixed (now : ℕ) (identifier : String) (n : ℕ) :
    ∀ (rl : RateLimiter) (m : ℕ),
      jsMapGet rl.buckets identifier = some ⟨(m : ℤ), now⟩ →
      (runUnit now identifier rl n).1 = min m n := by
  induction n with
  | zero =>
    intro rl m _
    simp [runUnit]
  | succ n ih =>
    intro rl m hb
    have hA := rl.isAllowed_at_now now identifier 1 ⟨(m : ℤ), now⟩ hb rfl
    rcases Nat.eq_zero_or_pos m with h0 | hpos
    · subst h0
      rw [if_neg (by norm_num)] at hA
      simp only [runUnit, hA]
      rw [ih _ 0 (jsMapGet_set_self _ _ _)]
      simp
    · have hcond : ((1 : ℕ) : ℤ) ≤ (Bucket.mk ((m : ℕ) : ℤ) now).tokens := by
        show ((1 : ℕ) : ℤ) ≤ ((m : ℕ) : ℤ)
        exact_mod_cast hpos
      rw [if_pos hcond] at hA
      simp only [runUnit, hA]
      rw [show ((m : ℤ) - ((1 : ℕ) : ℤ)) = (((m - 1 : ℕ)) : ℤ) from by omega]
      rw [ih _ (m - 1) (jsMapGet_set_self _ _ _)]
      simp only [if_true]
      omega

/-- One `isAllowed` on an empty bucket (`tokens = 0`, `lastRefill = 0`) of a
    capacity-10, 1-token/s limiter, evaluated `t ≥ 1` whole seconds later:
    refills `min 10 t` tokens, admits, and debits one. -/
theorem RateLimiter.isAllowed_refill_step (rl : RateLimiter) (t : ℕ) (identifier : String)
    (hb : jsMapGet rl.buckets identifier = some ⟨0, 0⟩)
    (hcap : rl.capacity = 10) (hr : rl.refillRate = 1) (hpos : 1 ≤ t) :
    rl.isAllowed (1000 * t) identifier 1
      = (true, { rl with buckets := jsMapSet rl.buckets identifier ⟨min 10 (t : ℤ) - 1, 1000 * t⟩ }) := by
  unfold RateLimiter.isAllowed
  simp only [hb, hr]
  unfold refillAmount
  rw [Nat.sub_zero, Nat.mul_one, Nat.mul_div_cancel_left t (by norm_num : 0 < 1000)]
  rw [if_pos (by omega : 0 < t)]
  rw [hcap]
  dsimp only []
  have hcond : ((1 : ℕ) : ℤ) ≤ min (10 : ℤ) ((0 : ℤ) + (t : ℤ)) := by
    push_cast
    omega
  rw [if_pos hcond]
  norm_num

/-! ## Claim C4: token conservation and bounded refill -/

/-- C4: every bucket satisfies `0 ≤ tokens ≤ capacity` after `isAllowed`,
    `getRemaining` (which returns a value in `[0, capacity]` and leaves the
    state untouched), `reset`, and `cleanup`.  Moreover, for a capacity-10,
    1-token/second limiter: 10 immediate unit admissions all succeed and the
    11th is denied; from the exhausted bucket, after waiting `t` whole
    seconds, exactly `min t 10` further unit admissions succeed no matter how
    large `t` is (`n` attempts admit `min (min t 10) n`). -/
theorem rateLimiter_invariant_and_conservation
    (rl : RateLimiter) (now : ℕ) (identifier : String) (cost : ℕ)
    (hcap : 0 ≤ rl.capacity) (hinv : BucketsInv rl) :
    BucketsInv (rl.isAllowed now identifier cost).2
    ∧ (0 ≤ rl.getRemaining now identifier ∧ rl.getRemaining now identifier ≤ rl.capacity)
    ∧ BucketsInv (rl.reset identifier)
    ∧ BucketsInv (rl.cleanup now)
    ∧ ((runUnit 0 "u" limiter10 10).1 = 10
        ∧ ((runUnit 0 "u" limiter10 10).2.isAllowed 0 "u" 1).1 = false)
    ∧ (∀ t n : ℕ, (runUnit (1000 * t) "u" rlExhausted n).1 = min (min t 10) n) := by
  refine ⟨rl.isAllowed_inv now identifier cost hcap hinv,
          rl.getRemaining_bounds now identifier hcap,
          rl.reset_inv identifier hinv,
          rl.cleanup_inv now hinv,
          ⟨by decide, by decide⟩,
          ?_⟩
  intro t n
  rcases Nat.eq_zero_or_pos t with h0 | hpos
  · subst h0
    have hb : jsMapGet rlExhausted.buckets "u" = some ⟨((0 : ℕ) : ℤ), 1000 * 0⟩ := by decide
    rw [runUnit_fixed (1000 * 0) "u" n rlExhausted 0 hb]
    simp
  · cases n with
    | zero => simp [runUnit]
    | succ n =>
      have hb : jsMapGet rlExhausted.buckets "u" = some ⟨0, 0⟩ := by decide
      have hstep := rlExhausted.isAllowed_refill_step t "u" hb (by decide) (by decide) hpos
      simp only [runUnit, hstep]
      rw [show (min (10 : ℤ) (t : ℤ) - 1) = (((min 10 t - 1 : ℕ)) : ℤ) from by omega]
      rw [runUnit_fixed (1000 * t) "u" n _ (min 10 t - 1)
        (by exact jsMapGet_set_self rlExhausted.buckets "u" ⟨((min 10 t - 1 : ℕ) : ℤ), 1000 * t⟩)]
      simp only [if_true]
      omega

/-- Witness for C4 at `memoryRateLimiter` (capacity 200, fresh state). -/
theorem rateLimiter_invariant_and_conservation_witness :
    BucketsInv ((memoryRateLimiter.isAllowed 0 "u" 1).2)
    ∧ (0 ≤ memoryRateLimiter.getRemaining 0 "u"
        ∧ memoryRateLimiter.getRemaining 0 "u" ≤ memoryRateLimiter.capacity)
    ∧ BucketsInv (memoryRateLimiter.reset "u")
    ∧ BucketsInv (memoryRateLimiter.cleanup 0)
    ∧ ((runUnit 0 "u" limiter10 10).1 = 10
        ∧ ((runUnit 0 "u" limiter10 10).2.isAllowed 0 "u" 1).1 = false)
    ∧ (∀ t n : ℕ, (runUnit (1000 * t) "u" rlExhausted n).1 = min (min t 10) n) :=
  rateLimiter_invariant_and_conservation memoryRateLimiter 0 "u" 1 (by decide) (by decide)

/-! ## Claim C3: exact LRU eviction -/

/-- C3: inserting a fresh key into a cache at capacity evicts exactly the
    least-recently-touched entry (the first in recency order) and no other:
    the resulting map is the old map minus its head, with the new entry
    appended.  A live `get` hit moves the key to the most-recently-used (last)
    position.  Concretely, with capacity 2: after set A, set B, get A, set C,
    key B is absent while A and C are present. -/
theorem lru_eviction_exact {K V : Type} [DecidableEq K]
    (c d : LRUCache K V) (now : ℕ) (k : K) (v : V)
    (p : K × CacheEntry V) (rest : JsMap K (CacheEntry V)) (e : CacheEntry V)
    (h1 : c.cache = p :: rest)
    (h2 : ∀ q ∈ rest, q.1 ≠ p.1)
    (h3 : jsMapGet c.cache k = none)
    (h4 : (c.cache.length : ℤ) ≥ c.maxSize)
    (h5 : jsMapGet d.cache k = some e)
    (h6 : ¬ ((now : ℤ) - (e.timestamp : ℤ) > d.ttl)) :
    (c.set now k v).cache = rest ++ [(k, ⟨v, now, 1⟩)]
    ∧ (d.get now k).2.cache
        = jsMapDelete d.cache k ++ [(k, ⟨e.value, e.timestamp, e.accessCount + 1⟩)]
    ∧ ((lruScenario.get 0 "B").1 = none
        ∧ (lruScenario.get 0 "A").1 = some 1
        ∧ (lruScenario.get 0 "C").1 = some 3) := by
  have h3' : jsMapGet rest k = none := by
    rw [jsMapGet_eq_none_iff] at h3 ⊢
    intro q hq
    exact h3 q (by rw [h1]; exact List.mem_cons_of_mem _ hq)
  obtain ⟨pk, pv⟩ := p
  refine ⟨?_, ?_, by decide, by decide, by decide⟩
  · simp only [LRUCache.set, h3]
    rw [if_pos h4]
    simp only [h1]
    rw [show jsMapDelete ((pk, pv) :: rest) pk = rest from jsMapDelete_cons_head _ _ h2]
    exact jsMapSet_append rest k _ h3'
  · simp only [LRUCache.get, h5]
    rw [if_neg h6]
    exact jsMapSet_append _ _ _ (jsMapGet_delete_self _ _)

/-- Witness for C3 at concrete caches. -/
theorem lru_eviction_exact_witness :
    ((⟨[("x", ⟨1, 0, 1⟩), ("y", ⟨2, 0, 1⟩)], 2, 1000⟩ : LRUCache String ℕ).set 6 "z" 9).cache
        = [("y", ⟨2, 0, 1⟩)] ++ [("z", ⟨9, 6, 1⟩)]
    ∧ ((⟨[("z", ⟨7, 5, 1⟩)], 2, 1000⟩ : LRUCache String ℕ).get 6 "z").2.cache
        = jsMapDelete [("z", ⟨7, 5, 1⟩)] "z" ++ [("z", ⟨7, 5, 2⟩)]
    ∧ ((lruScenario.get 0 "B").1 = none
        ∧ (lruScenario.get 0 "A").1 = some 1
        ∧ (lruScenario.get 0 "C").1 = some 3) :=
  lru_eviction_exact
    ⟨[("x", ⟨1, 0, 1⟩), ("y", ⟨2, 0, 1⟩)], 2, 1000⟩
    ⟨[("z", ⟨7, 5, 1⟩)], 2, 1000⟩ 6 "z" 9
    ("x", ⟨1, 0, 1⟩) [("y", ⟨2, 0, 1⟩)] ⟨7, 5, 1⟩
    (by decide) (by decide) (by decide) (by decide) (by decide) (by decide)

/-! ## Claim C9: constructors perform no validation -/

/-- C9 counterexample: an `LRUCache` constructed with capacity `0` (or `-1`)
    is not rejected — it is a usable instance that stores and returns values;
    a `RateLimiter` constructed with capacity `0` likewise operates normally
    (it simply denies every request). -/
theorem constructor_accepts_invalid_capacity :
    (((LRUCache.init 0 1000 : LRUCache String ℕ).set 0 "k" 9).get 0 "k").1 = some 9
    ∧ (((LRUCache.init (-1) 1000 : LRUCache String ℕ).set 0 "k" 9).get 0 "k").1 = some 9
    ∧ (RateLimiter.init 0 1 60000).capacity = 0
    ∧ (RateLimiter.init 0 1 60000).getRemaining 0 "u" = 0
    ∧ ((RateLimiter.init 0 1 60000).isAllowed 0 "u" 1).1 = false := by decide

/-- C9 amended: both constructors store their parameters without any
    validation and always succeed; even a cache constructed with capacity
    `0` or negative stores and returns a value. -/
theorem constructor_stores_params_unvalidated {K V : Type} [DecidableEq K]
    (maxSize ttl : ℤ) (httl : 0 ≤ ttl) (now : ℕ) (k : K) (v : V)
    (cap : ℤ) (r w : ℕ) :
    (LRUCache.init maxSize ttl : LRUCache K V).cache = []
    ∧ (LRUCache.init maxSize ttl : LRUCache K V).maxSize = maxSize
    ∧ (LRUCache.init maxSize ttl : LRUCache K V).ttl = ttl
    ∧ (((LRUCache.init maxSize ttl : LRUCache K V).set now k v).get now k).1 = some v
    ∧ (RateLimiter.init cap r w).buckets = []
    ∧ (RateLimiter.init cap r w).capacity = cap := by
  refine ⟨rfl, rfl, rfl, ?_, rfl, rfl⟩
  exact LRUCache.get_after_set _ httl now k v

/-- Witness for the amended C9 at capacity `0`. -/
theorem constructor_stores_params_unvalidated_witness :
    (LRUCache.init 0 0 : LRUCache String ℕ).cache = []
    ∧ (LRUCache.init 0 0 : LRUCache String ℕ).maxSize = 0
    ∧ (LRUCache.init 0 0 : LRUCache String ℕ).ttl = 0
    ∧ (((LRUCache.init 0 0 : LRUCache String ℕ).set 3 "k" 9).get 3 "k").1 = some 9
    ∧ (RateLimiter.init (-2) 0 0).buckets = []
    ∧ (RateLimiter.init (-2) 0 0).capacity = -2 :=
  constructor_stores_params_unvalidated 0 0 (by decide) 3 "k" 9 (-2) 0 0

/-! ## Claim C10: TTL 0 semantics -/

/-- C10 counterexample: with `ttl = 0`, a `get`/`has` performed at the very
    moment of the `set` (same `Date.now()` millisecond) still returns the
    stored value, because the expiry check is the strict `age > ttl`. -/
theorem ttl_zero_same_millisecond_hit :
    ((((LRUCache.init 5 0 : LRUCache String ℕ).set 7 "k" 3).get 7 "k").1 = some 3)
    ∧ ((((LRUCache.init 5 0 : LRUCache String ℕ).set 7 "k" 3).has 7 "k").1 = true) := by decide

/-- C10 amended: with `ttl = 0`, an entry is stale at every strictly later
    millisecond: any `get` or `has` at time `t > now` reports the key absent. -/
theorem ttl_zero_stale_strictly_after {K V : Type} [DecidableEq K] (c : LRUCache K V)
    (httl : c.ttl = 0) (now t : ℕ) (ht : now < t) (k : K) (v : V) :
    ((c.set now k v).get t k).1 = none ∧ ((c.set now k v).has t k).1 = false := by
  obtain ⟨ac, hl⟩ := c.set_lookup now k v
  have hts : (c.set now k v).ttl = c.ttl := c.set_ttl now k v
  constructor
  · simp only [LRUCache.get, hl, hts, httl]
    rw [if_pos (by omega)]
  · simp only [LRUCache.has, hl, hts, httl]
    rw [if_pos (by omega)]

/-- Witness for the amended C10 one millisecond after insertion. -/
theorem ttl_zero_stale_strictly_after_witness :
    (((LRUCache.init 5 0 : LRUCache String ℕ).set 7 "k" 3).get 8 "k").1 = none
    ∧ (((LRUCache.init 5 0 : LRUCache String ℕ).set 7 "k" 3).has 8 "k").1 = false :=
  ttl_zero_stale_strictly_after (LRUCache.init 5 0) (by decide) 7 8 (by decide) "k" 3

/-! ## Claim C2: owner isolation of deleteMemory -/

theorem deleteMemory_no_match (db : List Memory) (id u : String)
    (h : ∀ r ∈ db, ¬ (r.id = id ∧ r.userId = u)) :
    deleteMemory db id u = (false, db) := by
  unfold deleteMemory
  have h1 : db.filter (fun m => decide (m.id = id ∧ m.userId = u)) = [] := by
    rw [List.filter_eq_nil_iff]
    intro a ha hcontra
    exact h a ha (by simpa using hcontra)
  have h2 : db.filter (fun m => decide (¬ (m.id = id ∧ m.userId = u))) = db := by
    rw [List.filter_eq_self]
    intro a ha
    simp only [decide_eq_true_eq]
    exact h a ha
  rw [h1, h2]
  rfl

/-- C2: deleting a memory owned by someone else returns `false` and leaves
    the table unchanged, and this outcome is identical to deleting an id
    that does not exist at all (so the two cases are indistinguishable to
    the caller). -/
theorem deleteMemory_owner_isolation
    (db : List Memory) (m : Memory) (attacker : String)
    (hm : m ∈ db)
    (hids : ∀ m1 ∈ db, ∀ m2 ∈ db, m1.id = m2.id → m1 = m2)
    (hne : attacker ≠ m.userId) :
    deleteMemory db m.id attacker = (false, db)
    ∧ (∀ (db2 : List Memory) (idX u : String), (∀ r ∈ db2, r.id ≠ idX) →
        deleteMemory db2 idX u = (false, db2)) := by
  constructor
  · apply deleteMemory_no_match
    intro r hr hmatch
    have hrm : r = m := hids r hr m hm hmatch.1
    exact hne ((hrm ▸ hmatch.2).symm)
  · intro db2 idX u hno
    apply deleteMemory_no_match
    intro r hr hmatch
    exact hno r hr hmatch.1

/-- Witness for C2: an attacker deleting the victim's row. -/
theorem deleteMemory_owner_isolation_witness :
    deleteMemory [victimRow] victimRow.id "attacker" = (false, [victimRow])
    ∧ (∀ (db2 : List Memory) (idX u : String), (∀ r ∈ db2, r.id ≠ idX) →
        deleteMemory db2 idX u = (false, db2)) :=
  deleteMemory_owner_isolation [victimRow] victimRow "attacker"
    (by decide) (by decide) (by decide)

/-! ## Claim C5: the batch embedding contract -/

theorem jsMapGet_mem_self {K V : Type} [DecidableEq K] (m : JsMap K V) (k : K) {v : V}
    (h : jsMapGet m k = some v) : (k, v) ∈ m := by
  simp only [jsMapGet, Option.map_eq_some'] at h
  obtain ⟨p, hfind, hp2⟩ := h
  have hk : p.1 = k := by simpa using List.find?_some hfind
  have hmem := List.mem_of_find?_eq_some hfind
  rw [← hk, ← hp2]
  exact hmem

theorem LRUCache.get_some_val {K V : Type} [DecidableEq K] (c : LRUCache K V) (now : ℕ)
    (k : K) {v : V} (hv : (c.get now k).1 = some v) :
    ∃ e, (k, e) ∈ c.cache ∧ e.value = v := by
  cases h : jsMapGet c.cache k with
  | none =>
    simp only [LRUCache.get, h] at hv
    exact Option.noConfusion hv
  | some e =>
    simp only [LRUCache.get, h] at hv
    split at hv
    · simp at hv
    · exact ⟨e, jsMapGet_mem_self _ _ h, by simpa using hv⟩

theorem LRUCache.get_value_sub {K V : Type} [DecidableEq K] (c : LRUCache K V) (now : ℕ)
    (k : K) : ∀ p ∈ (c.get now k).2.cache, ∃ q ∈ c.cache, p.1 = q.1 ∧ p.2.value = q.2.value := by
  intro p hp
  cases h : jsMapGet c.cache k with
  | none =>
    simp only [LRUCache.get, h] at hp
    exact ⟨p, hp, rfl, rfl⟩
  | some e =>
    simp only [LRUCache.get, h] at hp
    split at hp
    · exact ⟨p, List.mem_of_mem_filter (show p ∈ jsMapDelete c.cache k from hp), rfl, rfl⟩
    · rcases mem_jsMapSet (show p ∈ jsMapSet (jsMapDelete c.cache k) k
          ⟨e.value, e.timestamp, e.accessCount + 1⟩ from hp) with hm | hm
      · exact ⟨p, List.mem_of_mem_filter hm, rfl, rfl⟩
      · exact ⟨(k, e), jsMapGet_mem_self _ _ h, by rw [hm], by rw [hm]⟩

theorem scanTexts_shift (now : ℕ) (ts : List String) :
    ∀ (i : ℕ) (c : LRUCache String (List ℚ)),
      scanTexts now ts (i + 1) c
        = ((scanTexts now ts i c).1,
           (scanTexts now ts i c).2.1.map (fun u => (u.1 + 1, u.2)),
           (scanTexts now ts i c).2.2) := by
  induction ts with
  | nil => intro i c; rfl
  | cons t ts ih =>
    intro i c
    simp only [scanTexts]
    rw [ih (i + 1) ((c.get now (hashText t)).2)]
    cases (c.get now (hashText t)).1 <;> simp

theorem fillResults_shift (now : ℕ) (ps : List ((ℕ × String) × List ℚ)) :
    ∀ (r : Option (List ℚ)) (rs : List (Option (List ℚ))) (cc : LRUCache String (List ℚ)),
      (fillResults now (ps.map (fun p => ((p.1.1 + 1, p.1.2), p.2))) (r :: rs) cc).1
        = r :: (fillResults now ps rs cc).1 := by
  induction ps with
  | nil => intro r rs cc; rfl
  | cons p ps ih =>
    intro r rs cc
    simp only [fillResults, List.map_cons]
    rw [List.set_cons_succ]
    exact ih _ _ _

theorem zip_map_self {α β : Type} (l : List α) (g : α → β) :
    l.zip (l.map g) = l.map (fun a => (a, g a)) := by
  induction l with
  | nil => rfl
  | cons a l ih => simp [ih]

/-- The scan-then-fill pipeline of `generateEmbeddings` reproduces
    `texts.map f` whenever the cache agrees with the pointwise provider `f`,
    for any cache `cc` the fill loop threads; and the scanned cache still
    agrees with `f`. -/
theorem scan_fill_correct (now : ℕ) (f : String → List ℚ) (texts : List String) :
    ∀ (c : LRUCache String (List ℚ)),
      (∀ p ∈ c.cache, p.2.value = f p.1) →
      (∀ (cc : LRUCache String (List ℚ)),
        ((fillResults now ((scanTexts now texts 0 c).2.1.map (fun u => (u, f u.2)))
            (scanTexts now texts 0 c).1 cc).1.map (fun r => r.getD []))
          = texts.map f)
      ∧ (∀ p ∈ (scanTexts now texts 0 c).2.2.cache, p.2.value = f p.1) := by
  induction texts with
  | nil => exact fun c hcoh => ⟨fun cc => rfl, hcoh⟩
  | cons t ts ih =>
    intro c hcoh
    have hcoh2 : ∀ p ∈ (c.get now (hashText t)).2.cache, p.2.value = f p.1 := by
      intro p hp
      obtain ⟨q, hq, h1, h2⟩ := LRUCache.get_value_sub c now (hashText t) p hp
      rw [h1, h2]
      exact hcoh q hq
    obtain ⟨ihA, ihB⟩ := ih (c.get now (hashText t)).2 hcoh2
    constructor
    · intro cc
      simp only [scanTexts]
      rw [scanTexts_shift now ts 0 ((c.get now (hashText t)).2)]
      cases hget : (c.get now (hashText t)).1 with
      | some v =>
        have hv : v = f (hashText t) := by
          obtain ⟨e, hmem, hval⟩ := LRUCache.get_some_val c now (hashText t) hget
          rw [← hval]
          exact hcoh (hashText t, e) hmem
        simp only [List.map_map]
        rw [show ((scanTexts now ts 0 ((c.get now (hashText t)).2)).2.1.map
              ((fun u => (u, f u.2)) ∘ (fun u => (u.1 + 1, u.2))))
            = ((scanTexts now ts 0 ((c.get now (hashText t)).2)).2.1.map
                (fun u => (u, f u.2))).map (fun p => ((p.1.1 + 1, p.1.2), p.2)) from by
          rw [List.map_map]
          rfl]
        rw [fillResults_shift]
        simp only [List.map_cons, Option.getD_some]
        rw [ihA cc, hv]
        rfl
      | none =>
        simp only [List.map_cons, List.map_map]
        rw [show ((scanTexts now ts 0 ((c.get now (hashText t)).2)).2.1.map
              ((fun u => (u, f u.2)) ∘ (fun u => (u.1 + 1, u.2))))
            = ((scanTexts now ts 0 ((c.get now (hashText t)).2)).2.1.map
                (fun u => (u, f u.2))).map (fun p => ((p.1.1 + 1, p.1.2), p.2)) from by
          rw [List.map_map]
          rfl]
        simp only [fillResults, List.set_cons_zero]
        rw [fillResults_shift]
        simp only [List.map_cons, Option.getD_some]
        rw [ihA ((cc.set now (hashText (0, t).2) (f (0, t).2)))]
    · simp only [scanTexts]
      rw [scanTexts_shift now ts 0 ((c.get now (hashText t)).2)]
      cases hget : (c.get now (hashText t)).1 <;> exact ihB

/-- C5: the batch embedding contract.  With a pointwise provider `f` and a
    cache that agrees with it: (1) if every text is cached, the call returns
    the vectors in input order and touches neither the rate limiter nor the
    provider; (2) if some texts are uncached and the limiter admits, the
    call returns one vector per input in input order, issues exactly one
    provider call carrying exactly the uncached texts, and the limiter
    transition is a single `isAllowed` of cost `uncached.length`; (3) if the
    limiter denies, the call fails with no provider call; (4) when the
    limiter's bucket is fresh at `now` and holds enough tokens, the bucket
    is debited by exactly the number of uncached texts. -/
theorem generateEmbeddings_batch_contract
    (env : EmbedEnv) (f : String → List ℚ) (now : ℕ) (texts : List String)
    (st : GatewayState)
    (hpb : ∀ ts, env.providerBatch ts = ts.map f)
    (hcoh : ∀ p ∈ st.embeddingCache.cache, p.2.value = f p.1) :
    (scanMisses now texts st = [] →
       generateEmbeddings env now texts st
         = (Except.ok (texts.map f),
            { st with embeddingCache := (scanTexts now texts 0 st.embeddingCache).2.2 }))
    ∧ (scanMisses now texts st ≠ [] →
        (st.embedLimiter.isAllowed now "embedding-global" (scanMisses now texts st).length).1 = true →
        (generateEmbeddings env now texts st).1 = Except.ok (texts.map f)
        ∧ (generateEmbeddings env now texts st).2.providerCalls
            = st.providerCalls ++ [(scanMisses now texts st).map (fun u => u.2)]
        ∧ (generateEmbeddings env now texts st).2.embedLimiter
            = (st.embedLimiter.isAllowed now "embedding-global" (scanMisses now texts st).length).2)
    ∧ (scanMisses now texts st ≠ [] →
        (st.embedLimiter.isAllowed now "embedding-global" (scanMisses now texts st).length).1 = false →
        (generateEmbeddings env now texts st).1 = Except.error ()
        ∧ (generateEmbeddings env now texts st).2.providerCalls = st.providerCalls)
    ∧ (∀ b : Bucket, scanMisses now texts st ≠ [] →
        jsMapGet st.embedLimiter.buckets "embedding-global" = some b →
        b.lastRefill = now →
        ((scanMisses now texts st).length : ℤ) ≤ b.tokens →
        (generateEmbeddings env now texts st).2.embedLimiter.buckets
          = jsMapSet st.embedLimiter.buckets "embedding-global"
              ⟨b.tokens - (scanMisses now texts st).length, now⟩) := by
  have hfill := (scan_fill_correct now f texts st.embeddingCache hcoh).1
  refine ⟨?_, ?_, ?_, ?_⟩
  · intro hempty
    simp only [scanMisses] at hempty
    have hlen : (scanTexts now texts 0 st.embeddingCache).2.1.length = 0 := by
      rw [hempty]
      rfl
    simp only [generateEmbeddings]
    rw [if_pos hlen]
    have h := hfill st.embeddingCache
    rw [hempty] at h
    simp only [List.map_nil, fillResults] at h
    rw [h]
  · intro hne hallow
    simp only [scanMisses] at hne hallow ⊢
    have hlen : ¬ (scanTexts now texts 0 st.embeddingCache).2.1.length = 0 := by
      simpa [List.length_eq_zero] using hne
    refine ⟨?_, ?_, ?_⟩
    · simp only [generateEmbeddings]
      rw [if_neg hlen, if_pos hallow]
      rw [hpb]
      rw [show (((scanTexts now texts 0 st.embeddingCache).2.1.map fun u => u.2).map f)
          = (scanTexts now texts 0 st.embeddingCache).2.1.map (fun u => f u.2) from by
        rw [List.map_map]
        rfl]
      rw [zip_map_self]
      exact congrArg Except.ok (hfill _)
    · simp only [generateEmbeddings]
      rw [if_neg hlen, if_pos hallow]
    · simp only [generateEmbeddings]
      rw [if_neg hlen, if_pos hallow]
  · intro hne hdeny
    simp only [scanMisses] at hne hdeny
    have hlen : ¬ (scanTexts now texts 0 st.embeddingCache).2.1.length = 0 := by
      simpa [List.length_eq_zero] using hne
    have hcond : ¬ ((st.embedLimiter.isAllowed now "embedding-global"
        (scanTexts now texts 0 st.embeddingCache).2.1.length).1 = true) := by
      rw [hdeny]
      exact Bool.false_ne_true
    constructor
    · simp only [generateEmbeddings]
      rw [if_neg hlen, if_neg hcond]
    · simp only [generateEmbeddings]
      rw [if_neg hlen, if_neg hcond]
  · intro b hne hb hlr hcost
    simp only [scanMisses] at hne hb hlr hcost ⊢
    have hlen : ¬ (scanTexts now texts 0 st.embeddingCache).2.1.length = 0 := by
      simpa [List.length_eq_zero] using hne
    have hA := st.embedLimiter.isAllowed_at_now now "embedding-global"
      (scanTexts now texts 0 st.embeddingCache).2.1.length b hb hlr
    rw [if_pos hcost] at hA
    have hallow : (st.embedLimiter.isAllowed now "embedding-global"
        (scanTexts now texts 0 st.embeddingCache).2.1.length).1 = true := by
      rw [hA]
    simp only [generateEmbeddings]
    rw [if_neg hlen, if_pos hallow, hA]

/-- Witness for C5: five texts with three cached; one provider call for
    exactly `["d", "e"]`, and the limiter transition is the cost-2 check. -/
theorem generateEmbeddings_batch_contract_witness :
    (generateEmbeddings envW 0 ["a", "b", "c", "d", "e"] gwW).1
        = Except.ok (["a", "b", "c", "d", "e"].map (fun _ => ([1] : List ℚ)))
    ∧ (generateEmbeddings envW 0 ["a", "b", "c", "d", "e"] gwW).2.providerCalls
        = gwW.providerCalls ++ [(scanMisses 0 ["a", "b", "c", "d", "e"] gwW).map (fun u => u.2)]
    ∧ (generateEmbeddings envW 0 ["a", "b", "c", "d", "e"] gwW).2.embedLimiter
        = (gwW.embedLimiter.isAllowed 0 "embedding-global"
            (scanMisses 0 ["a", "b", "c", "d", "e"] gwW).length).2 :=
  (generateEmbeddings_batch_contract envW (fun _ => [1]) 0 ["a", "b", "c", "d", "e"] gwW
    (fun _ => rfl) (by decide)).2.1 (by decide) (by decide)

/-! ## Claim C8: rate-limit denial becomes the lexical fallback -/

/-- C8: `searchMemories` runs its per-user rate limit first; a denial is
    thrown and caught by the surrounding `try`, so the call returns the
    lexical fallback — no quota error surfaces, the query cache is never
    consulted (and its contents are not returned), and no embedding or index
    work happens.  The only state change is the limiter's own mutation. -/
theorem searchMemories_denial_falls_back
    (env : SearchEnv) (now : ℕ) (userId query : String) (limit : ℕ) (threshold : ℚ)
    (st : SysState)
    (hdeny : (st.memoryLimiter.isAllowed now userId 1).1 = false) :
    searchMemories env now userId query limit threshold st
      = (fallbackTextSearch env userId query limit,
         { st with memoryLimiter := (st.memoryLimiter.isAllowed now userId 1).2 }) := by
  have hcond : ¬ ((st.memoryLimiter.isAllowed now userId 1).1 = true) := by
    rw [hdeny]
    exact Bool.false_ne_true
  simp only [searchMemories]
  rw [if_neg hcond]

/-- Witness for C8: the exhausted `"u1"` bucket at time 5. -/
theorem searchMemories_denial_falls_back_witness :
    searchMemories envS 5 "u1" "q" 5 ((7 : ℚ)/10) stDeny
      = (fallbackTextSearch envS "u1" "q" 5,
         { stDeny with memoryLimiter := (stDeny.memoryLimiter.isAllowed 5 "u1" 1).2 }) :=
  searchMemories_denial_falls_back envS 5 "u1" "q" 5 ((7 : ℚ)/10) stDeny (by decide)

/-! ## Claim C6: silent fallback when the similarity path fails -/

/-- C6: when the limiter admits and the query cache misses, a failure of
    either the embedding step or the similarity-index query makes
    `searchMemories` return the lexical fallback (the user's recent
    memories, each scored by case-insensitive containment) instead of
    raising; the fallback is not written to the query cache (the final
    query-cache state is exactly the post-`get` state, with no `set`), and
    every fallback score is the fixed `0.8` or the fixed `0.5`. -/
theorem searchMemories_failure_fallback
    (env : SearchEnv) (now : ℕ) (userId query : String) (limit : ℕ) (threshold : ℚ)
    (st : SysState)
    (hallow : (st.memoryLimiter.isAllowed now userId 1).1 = true)
    (hmiss : (st.queryCache.get now (hashQuery userId query limit threshold)).1 = none) :
    ((generateEmbedding env.toEmbedEnv now query st.gw).1 = Except.error () →
       searchMemories env now userId query limit threshold st
         = (fallbackTextSearch env userId query limit,
            { st with
              memoryLimiter := (st.memoryLimiter.isAllowed now userId 1).2,
              queryCache := (st.queryCache.get now (hashQuery userId query limit threshold)).2,
              gw := (generateEmbedding env.toEmbedEnv now query st.gw).2 }))
    ∧ (∀ emb, (generateEmbedding env.toEmbedEnv now query st.gw).1 = Except.ok emb →
        env.index st.indexCalls userId emb threshold limit = Except.error () →
        searchMemories env now userId query limit threshold st
          = (fallbackTextSearch env userId query limit,
             { st with
               memoryLimiter := (st.memoryLimiter.isAllowed now userId 1).2,
               queryCache := (st.queryCache.get now (hashQuery userId query limit threshold)).2,
               gw := (generateEmbedding env.toEmbedEnv now query st.gw).2,
               indexCalls := st.indexCalls + 1 }))
    ∧ (∀ r ∈ fallbackTextSearch env userId query limit,
        r.2 = (8 : ℚ)/10 ∨ r.2 = (5 : ℚ)/10) := by
  refine ⟨?_, ?_, ?_⟩
  · intro hembed
    simp only [searchMemories]
    rw [if_pos hallow]
    rw [hmiss, hembed]
  · intro emb hembed hindex
    simp only [searchMemories]
    rw [if_pos hallow]
    rw [hmiss, hembed]
    dsimp only
    rw [hindex]
  · intro r hr
    rw [fallbackTextSearch] at hr
    rw [List.mem_map] at hr
    obtain ⟨mem, _, he⟩ := hr
    rw [← he]
    by_cases hc : strIncludes (lowerStr mem.content) (lowerStr query) = true
    · left
      simp [hc]
    · right
      simp [hc]

/-- Witness for C6 in the always-failing environment at a fresh state. -/
theorem searchMemories_failure_fallback_witness :
    ((generateEmbedding envFail.toEmbedEnv 5 "q" st0.gw).1 = Except.error () →
       searchMemories envFail 5 "u1" "q" 5 ((7 : ℚ)/10) st0
         = (fallbackTextSearch envFail "u1" "q" 5,
            { st0 with
              memoryLimiter := (st0.memoryLimiter.isAllowed 5 "u1" 1).2,
              queryCache := (st0.queryCache.get 5 (hashQuery "u1" "q" 5 ((7 : ℚ)/10))).2,
              gw := (generateEmbedding envFail.toEmbedEnv 5 "q" st0.gw).2 }))
    ∧ (∀ emb, (generateEmbedding envFail.toEmbedEnv 5 "q" st0.gw).1 = Except.ok emb →
        envFail.index st0.indexCalls "u1" emb ((7 : ℚ)/10) 5 = Except.error () →
        searchMemories envFail 5 "u1" "q" 5 ((7 : ℚ)/10) st0
          = (fallbackTextSearch envFail "u1" "q" 5,
             { st0 with
               memoryLimiter := (st0.memoryLimiter.isAllowed 5 "u1" 1).2,
               queryCache := (st0.queryCache.get 5 (hashQuery "u1" "q" 5 ((7 : ℚ)/10))).2,
               gw := (generateEmbedding envFail.toEmbedEnv 5 "q" st0.gw).2,
               indexCalls := st0.indexCalls + 1 }))
    ∧ (∀ r ∈ fallbackTextSearch envFail "u1" "q" 5,
        r.2 = (8 : ℚ)/10 ∨ r.2 = (5 : ℚ)/10) :=
  searchMemories_failure_fallback envFail 5 "u1" "q" 5 ((7 : ℚ)/10) st0 (by decide) (by decide)

/-! ## Claim C1: the cache-hit path -/

/-- C1 counterexample: a `searchMemories` call whose key is cached returns
    the cached ranked list with no provider call and no index query — but
    the per-user rate limiter IS checked and its state changes (a token is
    debited before the cache is consulted), contradicting "no rate-limiter
    check (rate-limiter state unchanged)". -/
theorem searchMemories_cacheHit_debits_limiter :
    (searchMemories envS 5 "a:b" "c" 5 q7_10 stA).1 = [(row1, q9_10)]
    ∧ (searchMemories envS 5 "a:b" "c" 5 q7_10 stA).2.gw.providerCalls
        = stA.gw.providerCalls
    ∧ (searchMemories envS 5 "a:b" "c" 5 q7_10 stA).2.indexCalls = stA.indexCalls
    ∧ (searchMemories envS 5 "a:b" "c" 5 q7_10 stA).2.memoryLimiter
        ≠ stA.memoryLimiter := by decide

/-- C1 amended: when the per-user limiter admits (which debits a token) and
    the exact-match key is cached, `searchMemories` returns the cached
    ranked list immediately: no embedding call, no index query, and the only
    state changes are the limiter debit and the cache recency refresh. -/
theorem searchMemories_cacheHit_contract
    (env : SearchEnv) (now : ℕ) (userId query : String) (limit : ℕ) (threshold : ℚ)
    (st : SysState) (v : List (Memory × ℚ))
    (hallow : (st.memoryLimiter.isAllowed now userId 1).1 = true)
    (hhit : (st.queryCache.get now (hashQuery userId query limit threshold)).1 = some v) :
    searchMemories env now userId query limit threshold st
      = (v, { st with
              memoryLimiter := (st.memoryLimiter.isAllowed now userId 1).2,
              queryCache := (st.queryCache.get now (hashQuery userId query limit threshold)).2 }) := by
  simp only [searchMemories]
  rw [if_pos hallow, hhit]

/-- Witness for the amended C1: the repeated search on the cached state. -/
theorem searchMemories_cacheHit_contract_witness :
    searchMemories envS 5 "a:b" "c" 5 q7_10 stA
      = ([(row1, q9_10)],
         { stA with
           memoryLimiter := (stA.memoryLimiter.isAllowed 5 "a:b" 1).2,
           queryCache := (stA.queryCache.get 5 (hashQuery "a:b" "c" 5 q7_10)).2 }) :=
  searchMemories_cacheHit_contract envS 5 "a:b" "c" 5 q7_10 stA [(row1, q9_10)]
    (by decide) (by decide)

/-! ## Claim C7: the query-cache key is not injective -/

/-- C7: the colon-joined pre-image of the query-cache key collides for
    distinct argument tuples — `("a:b", "c")` and `("a", "b:c")` with the
    same limit and threshold produce the same key — so after user `"a:b"`
    populates the cache, the search by the different user `"a"` is answered
    from that cache entry: it returns user `"a:b"`'s ranked results without
    a second index query. -/
theorem hashQuery_collision_cross_user :
    hashQuery "a:b" "c" 5 q7_10 = hashQuery "a" "b:c" 5 q7_10
    ∧ ("a:b", "c") ≠ ("a", "b:c")
    ∧ (searchMemories envS 5 "a:b" "c" 5 q7_10 st0).1 = [(row1, q9_10)]
    ∧ (searchMemories envS 5 "a" "b:c" 5 q7_10 stA).1
        = (searchMemories envS 5 "a:b" "c" 5 q7_10 st0).1
    ∧ (searchMemories envS 5 "a" "b:c" 5 q7_10 stA).2.indexCalls = stA.indexCalls
    ∧ (searchMemories envS 5 "a" "b:c" 5 q7_10 stA).2.gw.providerCalls
        = stA.gw.providerCalls := by decide

end OmegaCore
